import Mathlib

/-!
# StreetsDatabase: loader and indexed cross-reference layer

A shallow embedding of the streets-database layer-2 API
(`StreetsDatabaseAPI.h`) and of its load pipeline: binary reader output
(raw entity tables), cross-reference builder, name synthesizer, and the
query façade.  The public header is the only source file of the
repository; the backing implementation (reader, cross-reference
construction, name synthesis) is modelled from the specification, as
noted on each definition.
-/

namespace StreetsDB

/-- Geographic position.  Modelled with integer (fixed-point) coordinates:
no claim involves floating-point arithmetic, positions are only carried
through and compared for equality. -/
structure LatLon where
  lat : Int
  lon : Int
deriving DecidableEq, Repr

/-- Which raw OSM entity kind produced a feature (node, way or relation). -/
inductive OSMEntityKind where
  | node
  | way
  | relation
deriving DecidableEq, Repr

/-- Raw intersection record as recovered by the Binary Reader:
position and external OSM node identifier. -/
structure RawIntersection where
  position : LatLon
  osmNodeID : Nat
deriving DecidableEq, Repr

/-- Raw street-segment record as recovered by the Binary Reader.
Field names follow `StreetSegmentInfo` in `StreetsDatabaseAPI.h`
(`from` is a Lean keyword, hence the quoted identifier); the curve
points are carried as the list itself, `curvePointCount` being its
length. -/
structure RawSegment where
  wayOSMID : Nat
  «from» : Nat
  «to» : Nat
  oneWay : Bool
  curvePoints : List LatLon
  speedLimit : Int
  streetID : Nat
deriving DecidableEq, Repr

/-- Raw street record: just a name (`getStreetName`). -/
structure RawStreet where
  name : String
deriving DecidableEq, Repr

/-- Raw point-of-interest record: type, name, position, OSM node id. -/
structure RawPOI where
  poiType : String
  name : String
  position : LatLon
  osmNodeID : Nat
deriving DecidableEq, Repr

/-- Raw feature record: name (possibly empty), feature-type tag,
originating OSM entity kind and id, and the ordered boundary points
(first and last equal for closed polygons; the loader preserves the
sequence verbatim). -/
structure RawFeature where
  name : String
  featureType : Nat
  osmKind : OSMEntityKind
  osmID : Nat
  points : List LatLon
deriving DecidableEq, Repr

/-- The five parallel entity tables recovered by the Binary Reader from
a well-formed byte stream. -/
structure RawData where
  intersections : List RawIntersection
  segments : List RawSegment
  streets : List RawStreet
  pois : List RawPOI
  features : List RawFeature
deriving DecidableEq, Repr

/-- `StreetSegmentInfo` as returned by `getStreetSegmentInfo`
(see `StreetsDatabaseAPI.h`). -/
structure StreetSegmentInfo where
  wayOSMID : Nat
  «from» : Nat
  «to» : Nat
  oneWay : Bool
  curvePointCount : Nat
  speedLimit : Int
  streetID : Nat
deriving DecidableEq, Repr

instance : Inhabited RawSegment :=
  ⟨{ wayOSMID := 0, «from» := 0, «to» := 0, oneWay := false,
     curvePoints := [], speedLimit := 0, streetID := 0 }⟩

instance : Inhabited RawStreet := ⟨{ name := "" }⟩

/-! ## Cross-Reference Builder

Modelled from the spec: the implementation behind
`getIntersectionStreetSegment` is not in the repository.  A single
linear scan over the segment table; for each segment (taken in table
order) its index is appended to the incident buckets of its two
endpoint intersections. -/

/-- Append `s` to the `i`-th bucket; out-of-range `i` leaves the
buckets unchanged. -/
def appendAt : List (List Nat) → Nat → Nat → List (List Nat)
  | [], _, _ => []
  | l :: ls, 0, s => (l ++ [s]) :: ls
  | l :: ls, i + 1, s => l :: appendAt ls i s

/-- Pair every element with its table index, starting at `k`. -/
def indexFrom : Nat → List RawSegment → List (Nat × RawSegment)
  | _, [] => []
  | k, g :: gs => (k, g) :: indexFrom (k + 1) gs

/-- The scan itself: fold the indexed segment table over the buckets,
recording each segment at both of its endpoints. -/
def xrefScan (ps : List (Nat × RawSegment)) (b : List (List Nat)) :
    List (List Nat) :=
  ps.foldl (fun b p => appendAt (appendAt b p.2.«from» p.1) p.2.«to» p.1) b

/-- Incident-segment lists for all `n` intersections, built by a single
linear scan over the segment table in load order. -/
def buildIncident (n : Nat) (segs : List RawSegment) : List (List Nat) :=
  xrefScan (indexFrom 0 segs) (List.replicate n [])

theorem appendAt_length (b : List (List Nat)) (i s : Nat) :
    (appendAt b i s).length = b.length := by
  induction b generalizing i with
  | nil => rfl
  | cons l ls ih =>
    cases i with
    | zero => rfl
    | succ i => simpa [appendAt] using ih i

theorem appendAt_getElem (b : List (List Nat)) (j s i : Nat)
    (h : i < b.length) (h' : i < (appendAt b j s).length) :
    (appendAt b j s)[i] = if j = i then b[i] ++ [s] else b[i] := by
  induction b generalizing i j with
  | nil => simp at h
  | cons l ls ih =>
    cases j with
    | zero =>
      cases i with
      | zero => simp [appendAt]
      | succ i => simp [appendAt]
    | succ j =>
      cases i with
      | zero => simp [appendAt]
      | succ i =>
        have h2 : i < ls.length := by simpa using h
        have h2' : i < (appendAt ls j s).length := by
          simpa [appendAt_length] using h2
        simpa [appendAt, Nat.succ_inj'] using ih j i h2 h2'

theorem xrefScan_length (ps : List (Nat × RawSegment))
    (b : List (List Nat)) : (xrefScan ps b).length = b.length := by
  induction ps generalizing b with
  | nil => rfl
  | cons p ps ih =>
    have := ih (appendAt (appendAt b p.2.«from» p.1) p.2.«to» p.1)
    simpa [xrefScan, appendAt_length] using this

/-- Bucket `i` after the scan: the prior contents followed by exactly the
scanned segment indices whose segment has `i` as an endpoint, in scan
order.  Requires that no scanned segment is a self-loop (otherwise it
would be recorded twice at the same intersection). -/
theorem xrefScan_getElem (ps : List (Nat × RawSegment))
    (hnl : ∀ p ∈ ps, p.2.«from» ≠ p.2.«to»)
    (b : List (List Nat)) (i : Nat) (h : i < b.length)
    (h' : i < (xrefScan ps b).length) :
    (xrefScan ps b)[i] =
      b[i] ++ (ps.filter fun p => p.2.«from» = i ∨ p.2.«to» = i).map Prod.fst := by
  induction ps generalizing b with
  | nil => simp [xrefScan]
  | cons p ps ih =>
    have hp : p.2.«from» ≠ p.2.«to» := hnl p (by simp)
    have hnl' : ∀ q ∈ ps, q.2.«from» ≠ q.2.«to» := fun q hq => hnl q (by simp [hq])
    have hb1 : i < (appendAt (appendAt b p.2.«from» p.1) p.2.«to» p.1).length := by
      simpa [appendAt_length] using h
    have step : (appendAt (appendAt b p.2.«from» p.1) p.2.«to» p.1)[i] =
        b[i] ++ (if p.2.«from» = i ∨ p.2.«to» = i then [p.1] else []) := by
      have hb0 : i < (appendAt b p.2.«from» p.1).length := by
        simpa [appendAt_length] using h
      rw [appendAt_getElem _ _ _ _ hb0 hb1, appendAt_getElem _ _ _ _ h hb0]
      by_cases hf : p.2.«from» = i
      · have ht : p.2.«to» ≠ i := fun hc => hp (hf.trans hc.symm)
        simp [hf, ht]
      · by_cases ht : p.2.«to» = i
        · simp [hf, ht]
        · simp [hf, ht]
    have h2' : i < (xrefScan ps (appendAt (appendAt b p.2.«from» p.1) p.2.«to» p.1)).length := by
      simpa [xrefScan_length, appendAt_length] using h
    calc (xrefScan (p :: ps) b)[i]
        = (xrefScan ps (appendAt (appendAt b p.2.«from» p.1) p.2.«to» p.1))[i] := rfl
      _ = (appendAt (appendAt b p.2.«from» p.1) p.2.«to» p.1)[i] ++
            (ps.filter fun q => q.2.«from» = i ∨ q.2.«to» = i).map Prod.fst :=
          ih hnl' _ hb1 h2'
      _ = b[i] ++ ((p :: ps).filter fun q => q.2.«from» = i ∨ q.2.«to» = i).map Prod.fst := by
          by_cases hc : p.2.«from» = i ∨ p.2.«to» = i
          · simp [step, hc, List.filter_cons]
          · simp [step, hc, List.filter_cons]

/-! ## Name Synthesizer

Modelled from the spec: the implementation behind
`getIntersectionName` is not in the repository.  For every intersection
the distinct street names of its incident segments, in first-seen
order, are joined with `" & "`; a name colliding with one already
assigned to an earlier intersection gets a parenthesized counter,
starting at 1, the whole pass running in intersection-index order. -/

/-- Decimal digit character (`d < 10`). -/
def digitChar (d : Nat) : Char := Char.ofNat (48 + d)

/-- Decimal digits of `n`, most significant first.  The first argument
is structural fuel; any fuel above `n` gives the same digits. -/
def natDigits : Nat → Nat → List Char
  | 0, _ => []
  | fuel + 1, n =>
    if n < 10 then [digitChar n]
    else natDigits fuel (n / 10) ++ [digitChar (n % 10)]

/-- Decimal representation of a natural number. -/
def natRepr (n : Nat) : String := ⟨natDigits (n + 1) n⟩

theorem natDigits_fuel (f f' n : Nat) (h : n < f) (h' : n < f') :
    natDigits f n = natDigits f' n := by
  induction f generalizing f' n with
  | zero => omega
  | succ f ih =>
    cases f' with
    | zero => omega
    | succ f' =>
      by_cases h10 : n < 10
      · simp [natDigits, h10]
      · have hdiv : n / 10 < n := Nat.div_lt_self (by omega) (by omega)
        simp only [natDigits, if_neg h10]
        rw [ih f' (n / 10) (by omega) (by omega)]

theorem natDigits_ne_nil (f n : Nat) (h : n < f) : natDigits f n ≠ [] := by
  cases f with
  | zero => omega
  | succ f =>
    by_cases h10 : n < 10 <;> simp [natDigits, h10]

theorem digitChar_inj :
    ∀ d1 < 10, ∀ d2 < 10, digitChar d1 = digitChar d2 → d1 = d2 := by
  decide

theorem natDigits_inj :
    ∀ n1 n2 : Nat, natDigits (n1 + 1) n1 = natDigits (n2 + 1) n2 → n1 = n2 := by
  intro n1
  induction n1 using Nat.strong_induction_on with
  | _ n1 ih =>
    intro n2 h
    by_cases h1 : n1 < 10 <;> by_cases h2 : n2 < 10
    · simp only [natDigits, if_pos h1, if_pos h2] at h
      exact digitChar_inj n1 h1 n2 h2 (by simpa using h)
    · exfalso
      simp only [natDigits, if_pos h1, if_neg h2] at h
      have hne : natDigits n2 (n2 / 10) ≠ [] :=
        natDigits_ne_nil _ _ (Nat.div_lt_self (by omega) (by omega))
      rcases he : natDigits n2 (n2 / 10) with _ | ⟨c, cs⟩
      · exact hne he
      · rw [he] at h
        have hlen := congrArg List.length h
        simp only [List.length_singleton, List.length_append,
          List.length_cons] at hlen
        omega
    · exfalso
      simp only [natDigits, if_neg h1, if_pos h2] at h
      have hne : natDigits n1 (n1 / 10) ≠ [] :=
        natDigits_ne_nil _ _ (Nat.div_lt_self (by omega) (by omega))
      rcases he : natDigits n1 (n1 / 10) with _ | ⟨c, cs⟩
      · exact hne he
      · rw [he] at h
        have hlen := congrArg List.length h
        simp only [List.length_singleton, List.length_append,
          List.length_cons] at hlen
        omega
    · simp only [natDigits, if_neg h1, if_neg h2] at h
      obtain ⟨hinit, hlast⟩ := List.append_inj' h (by simp)
      have hmod : n1 % 10 = n2 % 10 :=
        digitChar_inj _ (Nat.mod_lt _ (by omega)) _ (Nat.mod_lt _ (by omega))
          (by simpa using hlast)
      have hd1 : n1 / 10 < n1 := Nat.div_lt_self (by omega) (by omega)
      have hd2 : n2 / 10 < n2 := Nat.div_lt_self (by omega) (by omega)
      rw [natDigits_fuel n1 (n1 / 10 + 1) (n1 / 10) hd1 (by omega),
        natDigits_fuel n2 (n2 / 10 + 1) (n2 / 10) hd2 (by omega)] at hinit
      have hdiv : n1 / 10 = n2 / 10 := ih (n1 / 10) hd1 (n2 / 10) hinit
      omega

theorem natRepr_inj {m n : Nat} (h : natRepr m = natRepr n) : m = n :=
  natDigits_inj m n (congrArg String.data h)

/-- Modelled from the spec: the `k`-th disambiguation candidate,
`"base (k)"`. -/
def candName (b : String) (k : Nat) : String :=
  b ++ " (" ++ natRepr k ++ ")"

theorem candName_inj (b : String) {k1 k2 : Nat}
    (h : candName b k1 = candName b k2) : k1 = k2 := by
  have hd := congrArg String.data h
  simp only [candName, String.data_append] at hd
  have h1 := List.append_cancel_right hd
  have h2 := List.append_cancel_left h1
  exact natRepr_inj (String.ext h2)

theorem candName_ne_empty (b : String) (k : Nat) : candName b k ≠ "" := by
  intro h
  have hd := congrArg String.data h
  simp [candName, String.data_append] at hd

/-- Modelled from the spec: linear search for the first unused
disambiguation candidate, counting up from `k`; structural fuel. -/
def searchFrom (used : List String) (b : String) : Nat → Nat → String
  | k, 0 => candName b k
  | k, fuel + 1 =>
    if candName b k ∈ used then searchFrom used b (k + 1) fuel
    else candName b k

/-- Modelled from the spec (§Name Synthesizer): the base name itself if
not yet assigned, otherwise the first free `"base (k)"` with `k`
counting up from 1. -/
def freshName (used : List String) (b : String) : String :=
  if b ∈ used then searchFrom used b 1 (used.length + 1) else b

theorem searchFrom_not_mem (used : List String) (b : String) :
    ∀ fuel k, (∃ j, k ≤ j ∧ j < k + fuel ∧ candName b j ∉ used) →
      searchFrom used b k fuel ∉ used := by
  intro fuel
  induction fuel with
  | zero => intro k ⟨j, h1, h2, _⟩; omega
  | succ fuel ih =>
    intro k ⟨j, h1, h2, h3⟩
    by_cases hk : candName b k ∈ used
    · have hkj : k ≠ j := fun hc => h3 (hc ▸ hk)
      simpa [searchFrom, hk] using ih (k + 1) ⟨j, by omega, by omega, h3⟩
    · simp only [searchFrom, if_neg hk]
      exact hk

theorem searchFrom_shape (used : List String) (b : String) :
    ∀ fuel k, ∃ j, k ≤ j ∧ searchFrom used b k fuel = candName b j := by
  intro fuel
  induction fuel with
  | zero => intro k; exact ⟨k, le_refl _, rfl⟩
  | succ fuel ih =>
    intro k
    by_cases hk : candName b k ∈ used
    · obtain ⟨j, hj, he⟩ := ih (k + 1)
      exact ⟨j, by omega, by simpa [searchFrom, hk] using he⟩
    · exact ⟨k, le_refl _, by simp [searchFrom, hk]⟩

/-- Pigeonhole: among the first `used.length + 1` candidates at least
one is not in `used`. -/
theorem exists_free_cand (used : List String) (b : String) :
    ∃ j, 1 ≤ j ∧ j < used.length + 2 ∧ candName b j ∉ used := by
  by_contra hcon
  push_neg at hcon
  have hsub : ((List.range (used.length + 1)).map fun t => candName b (t + 1)) ⊆ used := by
    intro x hx
    simp only [List.mem_map, List.mem_range] at hx
    obtain ⟨t, ht, rfl⟩ := hx
    exact hcon (t + 1) (by omega) (by omega)
  have hnd : ((List.range (used.length + 1)).map fun t => candName b (t + 1)).Nodup := by
    refine List.Nodup.map ?_ (List.nodup_range _)
    intro t1 t2 hT
    have := candName_inj b hT
    omega
  have hle := (List.subperm_of_subset hnd hsub).length_le
  simp at hle

theorem freshName_not_mem (used : List String) (b : String) :
    freshName used b ∉ used := by
  unfold freshName
  by_cases hb : b ∈ used
  · simp only [if_pos hb]
    obtain ⟨j, h1, h2, h3⟩ := exists_free_cand used b
    exact searchFrom_not_mem used b (used.length + 1) 1 ⟨j, h1, by omega, h3⟩
  · simp only [if_neg hb]
    exact hb

/-- Either the base name is assigned unmodified, or it was already in
use and a candidate `"base (k)"`, `k ≥ 1`, is assigned. -/
theorem freshName_shape (used : List String) (b : String) :
    freshName used b = b ∨
      (b ∈ used ∧ ∃ k, 1 ≤ k ∧ freshName used b = candName b k) := by
  unfold freshName
  by_cases hb : b ∈ used
  · obtain ⟨j, hj, he⟩ := searchFrom_shape used b (used.length + 1) 1
    exact Or.inr ⟨hb, j, hj, by simp [hb, he]⟩
  · simp [hb]

theorem freshName_of_not_mem (used : List String) (b : String)
    (hb : b ∉ used) : freshName used b = b := by
  simp [freshName, hb]

theorem freshName_ne_empty (used : List String) (b : String)
    (hb : b ≠ "") : freshName used b ≠ "" := by
  rcases freshName_shape used b with h | ⟨_, k, _, h⟩
  · rw [h]; exact hb
  · rw [h]; exact candName_ne_empty b k

/-- Modelled from the spec: collect elements in first-seen order,
dropping later duplicates (accumulator-passing form). -/
def distinctAux (acc : List String) : List String → List String
  | [] => acc
  | nm :: rest => distinctAux (if nm ∈ acc then acc else acc ++ [nm]) rest

/-- The distinct street names among a list, in first-seen order. -/
def distinctInOrder (names : List String) : List String :=
  distinctAux [] names

theorem distinctAux_mem (acc names : List String) (x : String)
    (hx : x ∈ distinctAux acc names) : x ∈ acc ∨ x ∈ names := by
  induction names generalizing acc with
  | nil => exact Or.inl hx
  | cons nm rest ih =>
    rcases ih _ hx with h | h
    · by_cases hm : nm ∈ acc
      · simp only [if_pos hm] at h
        exact Or.inl h
      · simp only [if_neg hm, List.mem_append, List.mem_singleton] at h
        rcases h with h | h
        · exact Or.inl h
        · exact Or.inr (by simp [h])
    · exact Or.inr (by simp [h])

theorem distinctAux_ne_nil (acc names : List String) (ha : acc ≠ []) :
    distinctAux acc names ≠ [] := by
  induction names generalizing acc with
  | nil => exact ha
  | cons nm rest ih =>
    by_cases hm : nm ∈ acc
    · simpa [distinctAux, hm] using ih acc ha
    · exact by simpa [distinctAux, hm] using ih (acc ++ [nm]) (by simp)

theorem distinctInOrder_mem (names : List String) (x : String)
    (hx : x ∈ distinctInOrder names) : x ∈ names := by
  rcases distinctAux_mem [] names x hx with h | h
  · simp at h
  · exact h

theorem distinctInOrder_ne_nil (names : List String) (h : names ≠ []) :
    distinctInOrder names ≠ [] := by
  cases names with
  | nil => exact absurd rfl h
  | cons nm rest =>
    show distinctAux (if nm ∈ [] then [] else [] ++ [nm]) rest ≠ []
    simpa using distinctAux_ne_nil [nm] rest (by simp)

theorem distinctAux_const (nm : String) (names : List String)
    (h : ∀ x ∈ names, x = nm) : distinctAux [nm] names = [nm] := by
  induction names with
  | nil => rfl
  | cons x rest ih =>
    have hx : x = nm := h x (by simp)
    have : ∀ y ∈ rest, y = nm := fun y hy => h y (by simp [hy])
    simpa [distinctAux, hx] using ih this

/-- A list of names all equal to `nm` collapses to `[nm]`. -/
theorem distinctInOrder_const (nm : String) (names : List String)
    (hne : names ≠ []) (h : ∀ x ∈ names, x = nm) :
    distinctInOrder names = [nm] := by
  cases names with
  | nil => exact absurd rfl hne
  | cons x rest =>
    have hx : x = nm := h x (by simp)
    show distinctAux (if x ∈ [] then [] else [] ++ [x]) rest = [nm]
    simp only [List.not_mem_nil, if_neg, List.nil_append, hx]
    exact distinctAux_const nm rest fun y hy => h y (by simp [hy])

/-- Modelled from the spec: join street names with the fixed `" & "`
separator (ampersand convention). -/
def joinAmp : List String → String
  | [] => ""
  | [a] => a
  | a :: b :: rest => a ++ " & " ++ joinAmp (b :: rest)

theorem joinAmp_length_ge (a : String) (l : List String) :
    a.length ≤ (joinAmp (a :: l)).length := by
  cases l with
  | nil => simp [joinAmp]
  | cons b rest =>
    simp only [joinAmp, String.length_append]
    omega

theorem String.length_pos_of_ne_empty {s : String} (h : s ≠ "") :
    0 < s.length := by
  rcases Nat.eq_zero_or_pos s.length with h0 | h0
  · exact absurd (String.ext (List.length_eq_zero.mp h0)) h
  · exact h0

theorem joinAmp_ne_empty (a : String) (l : List String) (ha : a ≠ "") :
    joinAmp (a :: l) ≠ "" := by
  intro h
  have h1 := joinAmp_length_ge a l
  rw [h] at h1
  have h2 := String.length_pos_of_ne_empty ha
  have h3 : ("" : String).length = 0 := rfl
  omega

/-- Modelled from the spec: the disambiguation pass.  Assign names in
intersection-index order; each intersection gets `freshName` of its
base name with respect to everything assigned so far. -/
def assignFrom (assigned : List String) : List String → List String
  | [] => []
  | b :: bs =>
    freshName assigned b :: assignFrom (assigned ++ [freshName assigned b]) bs

/-- Names for all intersections given their base names. -/
def assignNames (bases : List String) : List String :=
  assignFrom [] bases

theorem assignFrom_length (assigned bases : List String) :
    (assignFrom assigned bases).length = bases.length := by
  induction bases generalizing assigned with
  | nil => rfl
  | cons b bs ih => simp [assignFrom, ih]

/-- Every name produced by the pass is `freshName` of the matching base
name against the names assigned before it. -/
theorem assignFrom_getElem (assigned bases : List String) (i : Nat)
    (h : i < bases.length) (h' : i < (assignFrom assigned bases).length) :
    (assignFrom assigned bases)[i] =
      freshName (assigned ++ (assignFrom assigned bases).take i) bases[i] := by
  induction bases generalizing assigned i with
  | nil => simp at h
  | cons b bs ih =>
    cases i with
    | zero => simp [assignFrom]
    | succ i =>
      have h2 : i < bs.length := by simpa using h
      have h2' : i < (assignFrom (assigned ++ [freshName assigned b]) bs).length := by
        simpa [assignFrom_length] using h2
      calc (assignFrom assigned (b :: bs))[i + 1]
          = (assignFrom (assigned ++ [freshName assigned b]) bs)[i] := by
            simp [assignFrom]
        _ = freshName ((assigned ++ [freshName assigned b]) ++
              (assignFrom (assigned ++ [freshName assigned b]) bs).take i) bs[i] :=
            ih _ i h2 h2'
        _ = freshName (assigned ++ (assignFrom assigned (b :: bs)).take (i + 1))
              (b :: bs)[i + 1] := by
            simp [assignFrom, List.append_assoc]

theorem assignFrom_nodup (assigned bases : List String)
    (h : assigned.Nodup) : (assigned ++ assignFrom assigned bases).Nodup := by
  induction bases generalizing assigned with
  | nil => simpa [assignFrom] using h
  | cons b bs ih =>
    have hf : freshName assigned b ∉ assigned := freshName_not_mem assigned b
    have h1 : (assigned ++ [freshName assigned b]).Nodup := by
      simp [List.nodup_append, h, hf]
    have := ih (assigned ++ [freshName assigned b]) h1
    simpa [assignFrom, List.append_assoc] using this

/-- The assigned names are pairwise distinct. -/
theorem assignNames_nodup (bases : List String) :
    (assignNames bases).Nodup := by
  simpa [assignNames] using assignFrom_nodup [] bases (by simp)

theorem assignFrom_ne_empty (assigned bases : List String)
    (h : ∀ b ∈ bases, b ≠ "") :
    ∀ x ∈ assignFrom assigned bases, x ≠ "" := by
  induction bases generalizing assigned with
  | nil => simp [assignFrom]
  | cons b bs ih =>
    intro x hx
    simp only [assignFrom, List.mem_cons] at hx
    rcases hx with rfl | hx
    · exact freshName_ne_empty _ _ (h b (by simp))
    · exact ih _ (fun y hy => h y (by simp [hy])) x hx

/-! ## Entity Tables and the load operation -/

instance : Inhabited LatLon := ⟨⟨0, 0⟩⟩

instance : Inhabited RawIntersection := ⟨⟨default, 0⟩⟩

/-- A fully cross-referenced intersection record: raw attributes plus
the synthesized display name and the incident-segment list. -/
structure Intersection where
  position : LatLon
  name : String
  osmNodeID : Nat
  incident : List Nat
deriving DecidableEq, Repr

/-- A successfully loaded database: the five entity tables, the
intersections augmented with names and adjacency. -/
structure Database where
  intersections : List Intersection
  segments : List RawSegment
  streets : List RawStreet
  pois : List RawPOI
  features : List RawFeature
deriving DecidableEq, Repr

/-- Name of the street owning segment `s` (the defaults are only
reachable for out-of-range indices, which the load rejects). -/
def segStreetName (raw : RawData) (s : Nat) : String :=
  (raw.streets.getD (raw.segments.getD s default).streetID default).name

/-- Base display name of each intersection: the distinct street names
among its incident segments' owning streets, in first-seen order,
joined with `" & "`. -/
def intersectionBases (raw : RawData) : List String :=
  (buildIncident raw.intersections.length raw.segments).map
    fun l => joinAmp (distinctInOrder (l.map (segStreetName raw)))

/-- Modelled from the spec: decode-time consistency checks; any failure
fails the whole load.  Checked: every segment's endpoint intersections
and owning street are in range (§4.3: a segment referencing an
intersection index outside the valid range is a load-time fatal
error); no segment is a self-loop (header: "Each street segment ends
at another intersection"); streets are named (§3: a street is a name
plus its member segments); every intersection has at least one
incident segment (header: "Each intersection has at least one street
segment incident on it"). -/
def decodeOK (raw : RawData) : Bool :=
  raw.segments.all (fun g =>
    decide (g.«from» < raw.intersections.length) &&
    decide (g.«to» < raw.intersections.length) &&
    decide (g.«from» ≠ g.«to») &&
    decide (g.streetID < raw.streets.length)) &&
  raw.streets.all (fun st => decide (st.name ≠ "")) &&
  (List.range raw.intersections.length).all (fun i =>
    raw.segments.any (fun g => g.«from» == i || g.«to» == i))

/-- Assemble the database from checked raw tables: run the
cross-reference builder, then the name synthesizer, and attach both to
the intersection records. -/
def mkDatabase (raw : RawData) : Database :=
  let inc := buildIncident raw.intersections.length raw.segments
  let names := assignNames (intersectionBases raw)
  { intersections := (List.range raw.intersections.length).map fun i =>
      { position := (raw.intersections.getD i default).position
        name := names.getD i ""
        osmNodeID := (raw.intersections.getD i default).osmNodeID
        incident := inc.getD i [] }
    segments := raw.segments
    streets := raw.streets
    pois := raw.pois
    features := raw.features }

/-- Modelled from the spec (§Binary Reader): load the decoded tables
into a database, failing on any decode inconsistency with no partial
state retained. -/
def loadDB (raw : RawData) : Option Database :=
  if decodeOK raw then some (mkDatabase raw) else none

theorem loadDB_eq_some {raw : RawData} {db : Database}
    (h : loadDB raw = some db) : decodeOK raw = true ∧ db = mkDatabase raw := by
  by_cases hc : decodeOK raw
  · refine ⟨hc, ?_⟩
    simpa [loadDB, hc] using h.symm
  · simp [loadDB, hc] at h

theorem decodeOK_spec {raw : RawData} (h : decodeOK raw = true) :
    (∀ g ∈ raw.segments,
      g.«from» < raw.intersections.length ∧
      g.«to» < raw.intersections.length ∧
      g.«from» ≠ g.«to» ∧ g.streetID < raw.streets.length) ∧
    (∀ st ∈ raw.streets, st.name ≠ "") ∧
    (∀ i < raw.intersections.length,
      ∃ g ∈ raw.segments, g.«from» = i ∨ g.«to» = i) := by
  simp only [decodeOK, Bool.and_eq_true, List.all_eq_true, List.any_eq_true,
    Bool.or_eq_true, beq_iff_eq, decide_eq_true_eq, List.mem_range] at h
  obtain ⟨⟨h1, h2⟩, h3⟩ := h
  exact ⟨fun g hg => by
      obtain ⟨⟨⟨a, b⟩, c⟩, d⟩ := h1 g hg
      exact ⟨a, b, c, d⟩,
    h2, fun i hi => h3 i hi⟩

/-! Characterization of the built incident lists. -/

theorem buildIncident_length (n : Nat) (segs : List RawSegment) :
    (buildIncident n segs).length = n := by
  simp [buildIncident, xrefScan_length]

theorem indexFrom_fst_lb (k : Nat) (segs : List RawSegment) :
    ∀ p ∈ indexFrom k segs, k ≤ p.1 := by
  induction segs generalizing k with
  | nil => simp [indexFrom]
  | cons g gs ih =>
    intro p hp
    simp only [indexFrom, List.mem_cons] at hp
    rcases hp with rfl | hp
    · exact le_refl _
    · exact le_trans (by omega) (ih (k + 1) p hp)

theorem indexFrom_pairwise (k : Nat) (segs : List RawSegment) :
    (indexFrom k segs).Pairwise fun p q => p.1 < q.1 := by
  induction segs generalizing k with
  | nil => simp [indexFrom]
  | cons g gs ih =>
    simp only [indexFrom, List.pairwise_cons]
    exact ⟨fun q hq => lt_of_lt_of_le (by omega) (indexFrom_fst_lb (k + 1) gs q hq),
      ih (k + 1)⟩

theorem mem_indexFrom (k : Nat) (segs : List RawSegment) (p : Nat × RawSegment) :
    p ∈ indexFrom k segs ↔
      ∃ j, ∃ h : j < segs.length, p.1 = k + j ∧ p.2 = segs[j] := by
  induction segs generalizing k with
  | nil => simp [indexFrom]
  | cons g gs ih =>
    simp only [indexFrom, List.mem_cons, ih (k + 1)]
    constructor
    · rintro (rfl | ⟨j, hj, h1, h2⟩)
      · exact ⟨0, by simp, by simp⟩
      · exact ⟨j + 1, by simpa using hj, by omega, by simpa using h2⟩
    · rintro ⟨j, hj, h1, h2⟩
      cases j with
      | zero =>
        left
        cases p
        simp_all
      | succ j =>
        right
        exact ⟨j, by simpa using hj, by omega, by simpa using h2⟩

theorem buildIncident_getElem {n : Nat} {segs : List RawSegment}
    (hnl : ∀ g ∈ segs, g.«from» ≠ g.«to») (i : Nat) (hi : i < n)
    (hi' : i < (buildIncident n segs).length) :
    (buildIncident n segs)[i] =
      ((indexFrom 0 segs).filter fun p => p.2.«from» = i ∨ p.2.«to» = i).map
        Prod.fst := by
  have hrep : i < (List.replicate n ([] : List Nat)).length := by simpa using hi
  have hnl' : ∀ p ∈ indexFrom 0 segs, p.2.«from» ≠ p.2.«to» := by
    intro p hp
    obtain ⟨j, hj, _, h2⟩ := (mem_indexFrom 0 segs p).mp hp
    exact h2 ▸ hnl segs[j] (List.getElem_mem hj)
  have hchar := xrefScan_getElem (indexFrom 0 segs) hnl'
    (List.replicate n []) i hrep (by simpa [xrefScan_length] using hrep)
  simpa [buildIncident] using hchar

theorem mem_buildIncident {n : Nat} {segs : List RawSegment}
    (hnl : ∀ g ∈ segs, g.«from» ≠ g.«to») (i : Nat) (hi : i < n)
    (hi' : i < (buildIncident n segs).length) (s : Nat) :
    s ∈ (buildIncident n segs)[i] ↔
      ∃ h : s < segs.length, segs[s].«from» = i ∨ segs[s].«to» = i := by
  rw [buildIncident_getElem hnl i hi hi']
  simp only [List.mem_map, List.mem_filter, decide_eq_true_eq]
  constructor
  · rintro ⟨p, ⟨hp, hcond⟩, rfl⟩
    obtain ⟨j, hj, h1, h2⟩ := (mem_indexFrom 0 segs p).mp hp
    have : p.1 = j := by omega
    subst this
    exact ⟨hj, by rwa [← h2]⟩
  · rintro ⟨hs, hcond⟩
    refine ⟨(s, segs[s]), ⟨?_, by simpa using hcond⟩, rfl⟩
    exact (mem_indexFrom 0 segs (s, segs[s])).mpr ⟨s, hs, by omega, rfl⟩

theorem buildIncident_sorted {n : Nat} {segs : List RawSegment}
    (hnl : ∀ g ∈ segs, g.«from» ≠ g.«to») (i : Nat) (hi : i < n)
    (hi' : i < (buildIncident n segs).length) :
    (buildIncident n segs)[i].Pairwise (· < ·) := by
  rw [buildIncident_getElem hnl i hi hi']
  rw [List.pairwise_map]
  exact ((indexFrom_pairwise 0 segs).sublist (List.filter_sublist _))

/-! ## Query Façade

The public surface of `StreetsDatabaseAPI.h`.  The original API throws
`std::out_of_range` on an invalid index and is undefined before a
successful load; here every accessor returns `Except QueryError`,
`outOfRange` standing for the exception and `notLoaded` for the misuse
condition of querying an unloaded database. -/

instance : Inhabited Intersection := ⟨⟨default, "", 0, []⟩⟩

instance : Inhabited RawFeature := ⟨⟨"", 0, .node, 0, []⟩⟩

/-- The two error classes of the query surface. -/
inductive QueryError where
  | outOfRange
  | notLoaded
deriving DecidableEq, Repr

def getNumberOfStreets (db : Database) : Nat := db.streets.length

def getNumberOfStreetSegments (db : Database) : Nat := db.segments.length

def getNumberOfIntersections (db : Database) : Nat := db.intersections.length

def getNumberOfPointsOfInterest (db : Database) : Nat := db.pois.length

def getNumberOfFeatures (db : Database) : Nat := db.features.length

def getIntersectionName (db : Database) (i : Nat) :
    Except QueryError String :=
  if h : i < db.intersections.length then .ok db.intersections[i].name
  else .error .outOfRange

def getIntersectionPosition (db : Database) (i : Nat) :
    Except QueryError LatLon :=
  if h : i < db.intersections.length then .ok db.intersections[i].position
  else .error .outOfRange

def getIntersectionOSMNodeID (db : Database) (i : Nat) :
    Except QueryError Nat :=
  if h : i < db.intersections.length then .ok db.intersections[i].osmNodeID
  else .error .outOfRange

def getIntersectionStreetSegmentCount (db : Database) (i : Nat) :
    Except QueryError Nat :=
  if h : i < db.intersections.length then
    .ok db.intersections[i].incident.length
  else .error .outOfRange

def getIntersectionStreetSegment (db : Database) (i j : Nat) :
    Except QueryError Nat :=
  if h : i < db.intersections.length then
    if h2 : j < db.intersections[i].incident.length then
      .ok db.intersections[i].incident[j]
    else .error .outOfRange
  else .error .outOfRange

def getStreetSegmentInfo (db : Database) (s : Nat) :
    Except QueryError StreetSegmentInfo :=
  if h : s < db.segments.length then
    .ok { wayOSMID := db.segments[s].wayOSMID
          «from» := db.segments[s].«from»
          «to» := db.segments[s].«to»
          oneWay := db.segments[s].oneWay
          curvePointCount := db.segments[s].curvePoints.length
          speedLimit := db.segments[s].speedLimit
          streetID := db.segments[s].streetID }
  else .error .outOfRange

def getStreetSegmentCurvePoint (db : Database) (s j : Nat) :
    Except QueryError LatLon :=
  if h : s < db.segments.length then
    if h2 : j < db.segments[s].curvePoints.length then
      .ok db.segments[s].curvePoints[j]
    else .error .outOfRange
  else .error .outOfRange

def getStreetName (db : Database) (st : Nat) : Except QueryError String :=
  if h : st < db.streets.length then .ok db.streets[st].name
  else .error .outOfRange

def getPointOfInterestType (db : Database) (p : Nat) :
    Except QueryError String :=
  if h : p < db.pois.length then .ok db.pois[p].poiType
  else .error .outOfRange

def getPointOfInterestName (db : Database) (p : Nat) :
    Except QueryError String :=
  if h : p < db.pois.length then .ok db.pois[p].name
  else .error .outOfRange

def getPointOfInterestPosition (db : Database) (p : Nat) :
    Except QueryError LatLon :=
  if h : p < db.pois.length then .ok db.pois[p].position
  else .error .outOfRange

def getPointOfInterestOSMNodeID (db : Database) (p : Nat) :
    Except QueryError Nat :=
  if h : p < db.pois.length then .ok db.pois[p].osmNodeID
  else .error .outOfRange

def getFeatureName (db : Database) (f : Nat) : Except QueryError String :=
  if h : f < db.features.length then .ok db.features[f].name
  else .error .outOfRange

def getFeatureType (db : Database) (f : Nat) : Except QueryError Nat :=
  if h : f < db.features.length then .ok db.features[f].featureType
  else .error .outOfRange

def getFeatureOSMID (db : Database) (f : Nat) :
    Except QueryError (OSMEntityKind × Nat) :=
  if h : f < db.features.length then
    .ok (db.features[f].osmKind, db.features[f].osmID)
  else .error .outOfRange

def getFeaturePointCount (db : Database) (f : Nat) : Except QueryError Nat :=
  if h : f < db.features.length then .ok db.features[f].points.length
  else .error .outOfRange

def getFeaturePoint (db : Database) (f j : Nat) : Except QueryError LatLon :=
  if h : f < db.features.length then
    if h2 : j < db.features[f].points.length then
      .ok db.features[f].points[j]
    else .error .outOfRange
  else .error .outOfRange

/-- One query of the public surface, with its indices. -/
inductive Query where
  | numberOfStreets
  | numberOfStreetSegments
  | numberOfIntersections
  | numberOfPointsOfInterest
  | numberOfFeatures
  | intersectionName (i : Nat)
  | intersectionPosition (i : Nat)
  | intersectionOSMNodeID (i : Nat)
  | intersectionStreetSegmentCount (i : Nat)
  | intersectionStreetSegment (i : Nat) (j : Nat)
  | streetSegmentInfo (s : Nat)
  | streetSegmentCurvePoint (s : Nat) (j : Nat)
  | streetName (st : Nat)
  | pointOfInterestType (p : Nat)
  | pointOfInterestName (p : Nat)
  | pointOfInterestPosition (p : Nat)
  | pointOfInterestOSMNodeID (p : Nat)
  | featureName (f : Nat)
  | featureType (f : Nat)
  | featureOSMID (f : Nat)
  | featurePointCount (f : Nat)
  | featurePoint (f : Nat) (j : Nat)
deriving DecidableEq, Repr

/-- A query result. -/
inductive Answer where
  | nat (n : Nat)
  | str (s : String)
  | pos (p : LatLon)
  | segInfo (info : StreetSegmentInfo)
  | typedID (k : OSMEntityKind) (id : Nat)
deriving DecidableEq, Repr

/-- Dispatch a query against a loaded database. -/
def runQueryDB (db : Database) : Query → Except QueryError Answer
  | .numberOfStreets => .ok (.nat (getNumberOfStreets db))
  | .numberOfStreetSegments => .ok (.nat (getNumberOfStreetSegments db))
  | .numberOfIntersections => .ok (.nat (getNumberOfIntersections db))
  | .numberOfPointsOfInterest => .ok (.nat (getNumberOfPointsOfInterest db))
  | .numberOfFeatures => .ok (.nat (getNumberOfFeatures db))
  | .intersectionName i => (getIntersectionName db i).map .str
  | .intersectionPosition i => (getIntersectionPosition db i).map .pos
  | .intersectionOSMNodeID i => (getIntersectionOSMNodeID db i).map .nat
  | .intersectionStreetSegmentCount i =>
      (getIntersectionStreetSegmentCount db i).map .nat
  | .intersectionStreetSegment i j =>
      (getIntersectionStreetSegment db i j).map .nat
  | .streetSegmentInfo s => (getStreetSegmentInfo db s).map .segInfo
  | .streetSegmentCurvePoint s j =>
      (getStreetSegmentCurvePoint db s j).map .pos
  | .streetName st => (getStreetName db st).map .str
  | .pointOfInterestType p => (getPointOfInterestType db p).map .str
  | .pointOfInterestName p => (getPointOfInterestName db p).map .str
  | .pointOfInterestPosition p => (getPointOfInterestPosition db p).map .pos
  | .pointOfInterestOSMNodeID p =>
      (getPointOfInterestOSMNodeID db p).map .nat
  | .featureName f => (getFeatureName db f).map .str
  | .featureType f => (getFeatureType db f).map .nat
  | .featureOSMID f => (getFeatureOSMID db f).map fun t => .typedID t.1 t.2
  | .featurePointCount f => (getFeaturePointCount db f).map .nat
  | .featurePoint f j => (getFeaturePoint db f j).map .pos

/-- Whether a query takes at least one index (the five counts do not). -/
def indexed : Query → Bool
  | .numberOfStreets | .numberOfStreetSegments | .numberOfIntersections
  | .numberOfPointsOfInterest | .numberOfFeatures => false
  | _ => true

/-- All indices of the query valid for `db`: the entity index within
`[0, countOf kind)` for the query's kind, and the point index within
the entity's point count for the two-index accessors. -/
def indexOK (db : Database) : Query → Bool
  | .numberOfStreets | .numberOfStreetSegments | .numberOfIntersections
  | .numberOfPointsOfInterest | .numberOfFeatures => true
  | .intersectionName i | .intersectionPosition i
  | .intersectionOSMNodeID i | .intersectionStreetSegmentCount i =>
      decide (i < db.intersections.length)
  | .intersectionStreetSegment i j =>
      decide (i < db.intersections.length) &&
      decide (j < (db.intersections.getD i default).incident.length)
  | .streetSegmentInfo s => decide (s < db.segments.length)
  | .streetSegmentCurvePoint s j =>
      decide (s < db.segments.length) &&
      decide (j < (db.segments.getD s default).curvePoints.length)
  | .streetName st => decide (st < db.streets.length)
  | .pointOfInterestType p | .pointOfInterestName p
  | .pointOfInterestPosition p | .pointOfInterestOSMNodeID p =>
      decide (p < db.pois.length)
  | .featureName f | .featureType f | .featureOSMID f
  | .featurePointCount f => decide (f < db.features.length)
  | .featurePoint f j =>
      decide (f < db.features.length) &&
      decide (j < (db.features.getD f default).points.length)

/-! ## Process context: the single implicit global of the original API

`loadStreetsDatabaseBIN` / `closeStreetDatabase` act on one process-wide
slot holding at most one loaded database.  The file argument is the
Binary Reader's view of the file: `none` models a file that cannot be
decoded at all (missing, truncated, bad magic/version), `some raw`
successfully recovered tables that may still fail the consistency
checks. -/

/-- Query against the global slot: misuse error when no database is
loaded. -/
def runQuery : Option Database → Query → Except QueryError Answer
  | none, _ => .error .notLoaded
  | some db, q => runQueryDB db q

/-- Modelled from the spec: the header's global load entry point.
Returns the success flag and the new global state; on failure no
partial state is retained. -/
def loadStreetsDatabaseBIN (_st : Option Database) (file : Option RawData) :
    Bool × Option Database :=
  match file.bind loadDB with
  | some db => (true, some db)
  | none => (false, none)

/-- Modelled from the spec: unload the global database. -/
def closeStreetDatabase (_st : Option Database) : Option Database := none

/-! ## Command traces: global-slot design vs. context-handle design

For the refinement claim the spec's context/handle design is embedded
separately (definitions suffixed `Handle`, written from the spec's
words): `load` returns a handle, every query takes a handle, and
independently loaded databases coexist.  A trace of commands is run in
both worlds; in the handle world the queries of the trace are directed
at the most recently returned handle, i.e. the discipline of a caller
that only ever creates one handle at a time. -/

/-- One step of a client program against the API. -/
inductive Cmd where
  | load (file : Option RawData)
  | close
  | query (q : Query)
deriving DecidableEq, Repr

/-- Observable output of one command. -/
inductive Out where
  | loaded (ok : Bool)
  | closed
  | answer (r : Except QueryError Answer)
deriving Repr

/-- Run a trace against the single implicit global slot. -/
def runGlobal : Option Database → List Cmd → List Out
  | _, [] => []
  | st, .load f :: cs =>
    let r := loadStreetsDatabaseBIN st f
    .loaded r.1 :: runGlobal r.2 cs
  | _, .close :: cs => .closed :: runGlobal (closeStreetDatabase none) cs
  | st, .query q :: cs => .answer (runQuery st q) :: runGlobal st cs

/-- Modelled from the spec (§9 design note): `load` returns an explicit
context; contexts accumulate, so independently loaded databases
coexist.  Returns the success flag, the new handle (if any) and the
extended context store. -/
def loadHandle (ctxs : List Database) (file : Option RawData) :
    (Bool × Option Nat) × List Database :=
  match file.bind loadDB with
  | some db => ((true, some ctxs.length), ctxs ++ [db])
  | none => ((false, none), ctxs)

/-- Modelled from the spec: query through a handle; a dangling or
absent handle is the misuse condition. -/
def queryHandle (ctxs : List Database) (h : Option Nat) (q : Query) :
    Except QueryError Answer :=
  match h with
  | none => .error .notLoaded
  | some i =>
    match ctxs[i]? with
    | some db => runQueryDB db q
    | none => .error .notLoaded

/-- Run a trace in the handle world, directing every query at the most
recently created handle (single-handle discipline). -/
def runHandle : List Database → Option Nat → List Cmd → List Out
  | _, _, [] => []
  | ctxs, _, .load f :: cs =>
    let r := loadHandle ctxs f
    .loaded r.1.1 :: runHandle r.2 r.1.2 cs
  | ctxs, _, .close :: cs => .closed :: runHandle ctxs none cs
  | ctxs, h, .query q :: cs =>
    .answer (queryHandle ctxs h q) :: runHandle ctxs h cs

/-- The state correspondence between the two worlds: the global slot
holds exactly the database the current handle designates. -/
def HandleSim (st : Option Database) (ctxs : List Database)
    (h : Option Nat) : Prop :=
  match st, h with
  | none, none => True
  | some db, some i => ctxs[i]? = some db
  | _, _ => False

theorem queryHandle_sim {st : Option Database} {ctxs : List Database}
    {h : Option Nat} (hs : HandleSim st ctxs h) (q : Query) :
    queryHandle ctxs h q = runQuery st q := by
  cases st with
  | none =>
    cases h with
    | none => rfl
    | some i => exact absurd hs (by simp [HandleSim])
  | some db =>
    cases h with
    | none => exact absurd hs (by simp [HandleSim])
    | some i =>
      have : ctxs[i]? = some db := hs
      simp [queryHandle, this, runQuery]

theorem runHandle_sim (cs : List Cmd) :
    ∀ (st : Option Database) (ctxs : List Database) (h : Option Nat),
      HandleSim st ctxs h → runHandle ctxs h cs = runGlobal st cs := by
  induction cs with
  | nil => intro st ctxs h _; rfl
  | cons c cs ih =>
    intro st ctxs h hs
    cases c with
    | load f =>
      cases hf : f.bind loadDB with
      | none =>
        simp only [runHandle, runGlobal, loadHandle, loadStreetsDatabaseBIN, hf]
        exact congrArg _ (ih none ctxs none trivial)
      | some db =>
        simp only [runHandle, runGlobal, loadHandle, loadStreetsDatabaseBIN, hf]
        refine congrArg _ (ih (some db) (ctxs ++ [db]) (some ctxs.length) ?_)
        show (ctxs ++ [db])[ctxs.length]? = some db
        simp
    | close =>
      simp only [runHandle, runGlobal, closeStreetDatabase]
      exact congrArg _ (ih none ctxs none trivial)
    | query q =>
      simp only [runHandle, runGlobal]
      rw [queryHandle_sim hs q]
      exact congrArg _ (ih st ctxs h hs)

/-- In the handle world an existing context is untouched by later
loads: answers through an old handle are unchanged after new databases
are loaded. -/
theorem queryHandle_stable (ctxs : List Database) (more : List Database)
    (i : Nat) (hi : i < ctxs.length) (q : Query) :
    queryHandle (ctxs ++ more) (some i) q = queryHandle ctxs (some i) q := by
  have h1 : (ctxs ++ more)[i]? = ctxs[i]? := by
    rw [List.getElem?_append]
    simp [hi]
  simp [queryHandle, h1]

/-! ## Bridging lemmas: the assembled database vs. its components -/

theorem mkDatabase_intersections_length (raw : RawData) :
    (mkDatabase raw).intersections.length = raw.intersections.length := by
  simp [mkDatabase]

theorem intersectionBases_length (raw : RawData) :
    (intersectionBases raw).length = raw.intersections.length := by
  simp [intersectionBases, buildIncident_length]

theorem mkDatabase_intersections_getElem (raw : RawData) (i : Nat)
    (_hi : i < raw.intersections.length)
    (hi' : i < (mkDatabase raw).intersections.length) :
    (mkDatabase raw).intersections[i] =
      { position := (raw.intersections.getD i default).position
        name := (assignNames (intersectionBases raw)).getD i ""
        osmNodeID := (raw.intersections.getD i default).osmNodeID
        incident :=
          (buildIncident raw.intersections.length raw.segments).getD i [] } := by
  simp [mkDatabase]

theorem mkDatabase_incident (raw : RawData) (i : Nat)
    (hi : i < raw.intersections.length)
    (hi' : i < (mkDatabase raw).intersections.length)
    (hb : i < (buildIncident raw.intersections.length raw.segments).length) :
    (mkDatabase raw).intersections[i].incident =
      (buildIncident raw.intersections.length raw.segments)[i] := by
  rw [mkDatabase_intersections_getElem raw i hi hi']
  exact List.getD_eq_getElem _ _ hb

theorem mkDatabase_name (raw : RawData) (i : Nat)
    (hi : i < raw.intersections.length)
    (hi' : i < (mkDatabase raw).intersections.length)
    (hn : i < (assignNames (intersectionBases raw)).length) :
    (mkDatabase raw).intersections[i].name =
      (assignNames (intersectionBases raw))[i] := by
  rw [mkDatabase_intersections_getElem raw i hi hi']
  exact List.getD_eq_getElem _ _ hn

theorem assignNames_length (bases : List String) :
    (assignNames bases).length = bases.length := by
  simp [assignNames, assignFrom_length]

/-- Membership in a loaded intersection's incident list is exactly
having that intersection as an endpoint in the raw segment table. -/
theorem db_incident_mem {raw : RawData} {db : Database}
    (hload : loadDB raw = some db) (i : Nat)
    (hi : i < db.intersections.length) (s : Nat) :
    s ∈ db.intersections[i].incident ↔
      ∃ h : s < raw.segments.length,
        raw.segments[s].«from» = i ∨ raw.segments[s].«to» = i := by
  obtain ⟨hok, rfl⟩ := loadDB_eq_some hload
  obtain ⟨hsegs, _, _⟩ := decodeOK_spec hok
  have hi0 : i < raw.intersections.length := by
    simpa [mkDatabase_intersections_length] using hi
  have hb : i < (buildIncident raw.intersections.length raw.segments).length := by
    simpa [buildIncident_length] using hi0
  rw [mkDatabase_incident raw i hi0 hi hb]
  exact mem_buildIncident (fun g hg => (hsegs g hg).2.2.1) i hi0 hb s

/-- Accessor inversion: a successful `getStreetSegmentInfo` reads the
raw segment record. -/
theorem getStreetSegmentInfo_ok {db : Database} {s : Nat}
    {info : StreetSegmentInfo} (h : getStreetSegmentInfo db s = .ok info) :
    ∃ hs : s < db.segments.length,
      info.«from» = db.segments[s].«from» ∧
      info.«to» = db.segments[s].«to» ∧
      info.curvePointCount = db.segments[s].curvePoints.length := by
  by_cases hs : s < db.segments.length
  · refine ⟨hs, ?_⟩
    rw [getStreetSegmentInfo, dif_pos hs] at h
    cases h
    exact ⟨rfl, rfl, rfl⟩
  · rw [getStreetSegmentInfo, dif_neg hs] at h
    cases h

theorem getIntersectionStreetSegment_ok {db : Database} {i j s : Nat}
    (h : getIntersectionStreetSegment db i j = .ok s) :
    ∃ hi : i < db.intersections.length,
      ∃ hj : j < db.intersections[i].incident.length,
        db.intersections[i].incident[j] = s := by
  by_cases hi : i < db.intersections.length
  · rw [getIntersectionStreetSegment, dif_pos hi] at h
    by_cases hj : j < db.intersections[i].incident.length
    · rw [dif_pos hj] at h
      cases h
      exact ⟨hi, hj, rfl⟩
    · rw [dif_neg hj] at h
      cases h
  · rw [getIntersectionStreetSegment, dif_neg hi] at h
    cases h

theorem getIntersectionStreetSegment_of (db : Database) (i j : Nat)
    (hi : i < db.intersections.length)
    (hj : j < db.intersections[i].incident.length) :
    getIntersectionStreetSegment db i j = .ok db.intersections[i].incident[j] := by
  rw [getIntersectionStreetSegment, dif_pos hi, dif_pos hj]

theorem getIntersectionStreetSegmentCount_of (db : Database) (i : Nat)
    (hi : i < db.intersections.length) :
    getIntersectionStreetSegmentCount db i =
      .ok db.intersections[i].incident.length := by
  rw [getIntersectionStreetSegmentCount, dif_pos hi]

theorem mkDatabase_segments (raw : RawData) :
    (mkDatabase raw).segments = raw.segments := rfl

theorem mkDatabase_streets (raw : RawData) :
    (mkDatabase raw).streets = raw.streets := rfl

theorem mkDatabase_features (raw : RawData) :
    (mkDatabase raw).features = raw.features := rfl

/-! ## Concrete scenario data -/

/-- A small concrete map: two intersections joined by one segment of
the single street "Main", plus one closed-polygon feature.  Both
intersections have exactly one incident street, so the name
synthesizer must assign "Main" and then disambiguate "Main (1)". -/
def rawA : RawData :=
  { intersections := [⟨⟨0, 0⟩, 100⟩, ⟨⟨1, 1⟩, 101⟩]
    segments := [{ wayOSMID := 500, «from» := 0, «to» := 1, oneWay := false,
                   curvePoints := [⟨0, 1⟩], speedLimit := 40, streetID := 0 }]
    streets := [⟨"Main"⟩]
    pois := []
    features := [{ name := "Pond", featureType := 3, osmKind := .way,
                   osmID := 900,
                   points := [⟨0, 0⟩, ⟨2, 0⟩, ⟨1, 2⟩, ⟨0, 0⟩] }] }

/-- The database loaded from `rawA`. -/
def dbA : Database := mkDatabase rawA

/-- The segment info record of `rawA`'s only segment. -/
def infoA : StreetSegmentInfo :=
  { wayOSMID := 500, «from» := 0, «to» := 1, oneWay := false,
    curvePointCount := 1, speedLimit := 40, streetID := 0 }

/-! ## The claims -/

/-- **C1**: for every successfully loaded database and every street
segment `s` whose `getStreetSegmentInfo` reports endpoints `(i, j)`,
intersection `i`'s incident-segment list (enumerated by
`getIntersectionStreetSegment` over `0..count-1`) contains `s`,
intersection `j`'s list contains `s`, and conversely every segment in
an intersection's incident list has that intersection as its from- or
to-endpoint. -/
theorem xref_mutually_consistent
    (raw : RawData) (db : Database) (hload : loadDB raw = some db)
    (s : Nat) (info : StreetSegmentInfo)
    (hinfo : getStreetSegmentInfo db s = .ok info) :
    (∃ cnt, getIntersectionStreetSegmentCount db info.«from» = .ok cnt ∧
      ∃ j, ∃ _ : j < cnt, getIntersectionStreetSegment db info.«from» j = .ok s) ∧
    (∃ cnt, getIntersectionStreetSegmentCount db info.«to» = .ok cnt ∧
      ∃ j, ∃ _ : j < cnt, getIntersectionStreetSegment db info.«to» j = .ok s) ∧
    (∀ i j s', getIntersectionStreetSegment db i j = .ok s' →
      ∃ info2, getStreetSegmentInfo db s' = .ok info2 ∧
        (info2.«from» = i ∨ info2.«to» = i)) := by
  obtain ⟨hok, rfl⟩ := loadDB_eq_some hload
  obtain ⟨hsegs, _, _⟩ := decodeOK_spec hok
  obtain ⟨hs, hfrom, hto, _⟩ := getStreetSegmentInfo_ok hinfo
  have hs' : s < raw.segments.length := hs
  have hmem : raw.segments[s] ∈ raw.segments := List.getElem_mem hs'
  have hforward : ∀ e, (raw.segments[s].«from» = e ∨ raw.segments[s].«to» = e) →
      e < (mkDatabase raw).intersections.length →
      ∃ cnt, getIntersectionStreetSegmentCount (mkDatabase raw) e = .ok cnt ∧
        ∃ j, ∃ _ : j < cnt,
          getIntersectionStreetSegment (mkDatabase raw) e j = .ok s := by
    intro e hcond he
    have hmm := (db_incident_mem hload e he s).mpr ⟨hs', hcond⟩
    obtain ⟨j, hj, hje⟩ := List.getElem_of_mem hmm
    refine ⟨(mkDatabase raw).intersections[e].incident.length,
      getIntersectionStreetSegmentCount_of _ e he, j, hj, ?_⟩
    rw [getIntersectionStreetSegment_of _ e j he hj, hje]
  refine ⟨?_, ?_, ?_⟩
  · have he : info.«from» < (mkDatabase raw).intersections.length := by
      rw [hfrom, mkDatabase_intersections_length]
      exact (hsegs _ hmem).1
    exact hforward info.«from» (Or.inl hfrom.symm) he
  · have he : info.«to» < (mkDatabase raw).intersections.length := by
      rw [hto, mkDatabase_intersections_length]
      exact (hsegs _ hmem).2.1
    exact hforward info.«to» (Or.inr hto.symm) he
  · intro i j s' hq
    obtain ⟨hi, hj, hjs⟩ := getIntersectionStreetSegment_ok hq
    have hmm : s' ∈ (mkDatabase raw).intersections[i].incident :=
      hjs ▸ List.getElem_mem hj
    obtain ⟨hs2, hcond⟩ := (db_incident_mem hload i hi s').mp hmm
    have hs2' : s' < (mkDatabase raw).segments.length := hs2
    have hok' : getStreetSegmentInfo (mkDatabase raw) s' =
        .ok { wayOSMID := (mkDatabase raw).segments[s'].wayOSMID
              «from» := (mkDatabase raw).segments[s'].«from»
              «to» := (mkDatabase raw).segments[s'].«to»
              oneWay := (mkDatabase raw).segments[s'].oneWay
              curvePointCount := (mkDatabase raw).segments[s'].curvePoints.length
              speedLimit := (mkDatabase raw).segments[s'].speedLimit
              streetID := (mkDatabase raw).segments[s'].streetID } := by
      rw [getStreetSegmentInfo, dif_pos hs2']
    exact ⟨_, hok', hcond⟩

/-- Witness for C1 at the concrete map `rawA`, segment 0 with
endpoints (0, 1). -/
theorem xref_mutually_consistent_witness :
    ∃ cnt, getIntersectionStreetSegmentCount dbA 0 = .ok cnt ∧
      ∃ j, ∃ _ : j < cnt, getIntersectionStreetSegment dbA 0 j = .ok 0 := by
  have h := xref_mutually_consistent rawA dbA rfl 0 infoA rfl
  exact h.1

/-- **C10**: no loaded segment is a self-loop: the reported endpoint
intersections are distinct. -/
theorem segment_endpoints_distinct
    (raw : RawData) (db : Database) (hload : loadDB raw = some db)
    (s : Nat) (info : StreetSegmentInfo)
    (hinfo : getStreetSegmentInfo db s = .ok info) :
    info.«from» ≠ info.«to» := by
  obtain ⟨hok, rfl⟩ := loadDB_eq_some hload
  obtain ⟨hsegs, _, _⟩ := decodeOK_spec hok
  obtain ⟨hs, hfrom, hto, _⟩ := getStreetSegmentInfo_ok hinfo
  have hs' : s < raw.segments.length := hs
  have hne := (hsegs raw.segments[s] (List.getElem_mem hs')).2.2.1
  rw [hfrom, hto]
  exact hne

/-- Witness for C10 at `rawA`: segment 0 runs between the distinct
intersections 0 and 1. -/
theorem segment_endpoints_distinct_witness : infoA.«from» ≠ infoA.«to» :=
  segment_endpoints_distinct rawA dbA rfl 0 infoA rfl

/-- **C7**: the entries of an intersection's incident-segment list
appear in ascending segment-table order, i.e. the order segments are
discovered by the cross-reference builder's single linear scan: the
list equals, entry for entry, the in-order filter of segment indices
`0..numSegments-1` by the endpoint test. -/
theorem incident_list_in_load_order
    (raw : RawData) (db : Database) (hload : loadDB raw = some db)
    (i : Nat) (hi : i < db.intersections.length) :
    db.intersections[i].incident =
      (List.range db.segments.length).filter fun s =>
        (db.segments.getD s default).«from» == i ||
        (db.segments.getD s default).«to» == i := by
  have hload' := hload
  obtain ⟨hok, rfl⟩ := loadDB_eq_some hload
  obtain ⟨hsegs, _, _⟩ := decodeOK_spec hok
  have hi0 : i < raw.intersections.length := by
    simpa [mkDatabase_intersections_length] using hi
  have hb : i < (buildIncident raw.intersections.length raw.segments).length := by
    simpa [buildIncident_length] using hi0
  have hnl : ∀ g ∈ raw.segments, g.«from» ≠ g.«to» :=
    fun g hg => (hsegs g hg).2.2.1
  have hincid : (mkDatabase raw).intersections[i].incident =
      (buildIncident raw.intersections.length raw.segments)[i] :=
    mkDatabase_incident raw i hi0 hi hb
  have sorted1 : (mkDatabase raw).intersections[i].incident.Pairwise (· < ·) := by
    rw [hincid]
    exact buildIncident_sorted hnl i hi0 hb
  have sorted2 : ((List.range ((mkDatabase raw).segments.length)).filter fun s =>
      ((mkDatabase raw).segments.getD s default).«from» == i ||
      ((mkDatabase raw).segments.getD s default).«to» == i).Pairwise (· < ·) :=
    (List.pairwise_lt_range _).sublist (List.filter_sublist _)
  have nodup1 : (mkDatabase raw).intersections[i].incident.Nodup :=
    sorted1.imp Nat.ne_of_lt
  have nodup2 := sorted2.imp Nat.ne_of_lt
  have hmemiff : ∀ s, s ∈ (mkDatabase raw).intersections[i].incident ↔
      s ∈ (List.range ((mkDatabase raw).segments.length)).filter fun s =>
        ((mkDatabase raw).segments.getD s default).«from» == i ||
        ((mkDatabase raw).segments.getD s default).«to» == i := by
    intro s
    rw [db_incident_mem hload' i hi s]
    simp only [List.mem_filter, List.mem_range]
    constructor
    · rintro ⟨hs, hcond⟩
      have hgd : (mkDatabase raw).segments.getD s default = raw.segments[s] :=
        List.getD_eq_getElem _ _ hs
      refine ⟨hs, ?_⟩
      rw [hgd]
      simpa using hcond
    · rintro ⟨hs, hcond⟩
      have hgd : (mkDatabase raw).segments.getD s default = raw.segments[s] :=
        List.getD_eq_getElem _ _ hs
      rw [hgd] at hcond
      exact ⟨hs, by simpa using hcond⟩
  exact List.eq_of_perm_of_sorted
    ((List.perm_ext_iff_of_nodup nodup1 nodup2).mpr hmemiff)
    (sorted1.imp le_of_lt) (sorted2.imp le_of_lt)

/-- Witness for C7 at `rawA`, intersection 0: the incident list is
exactly the in-order endpoint filter of the segment table. -/
theorem incident_list_in_load_order_witness :
    (dbA.intersections.get ⟨0, by decide⟩).incident =
      (List.range dbA.segments.length).filter (fun s =>
        (dbA.segments.getD s default).«from» == 0 ||
        (dbA.segments.getD s default).«to» == 0) :=
  incident_list_in_load_order rawA dbA rfl 0 (by decide)

/-- Accessor inversion for `getIntersectionName`. -/
theorem getIntersectionName_ok {db : Database} {i : Nat} {nm : String}
    (h : getIntersectionName db i = .ok nm) :
    ∃ hi : i < db.intersections.length, nm = db.intersections[i].name := by
  by_cases hi : i < db.intersections.length
  · rw [getIntersectionName, dif_pos hi] at h
    cases h
    exact ⟨hi, rfl⟩
  · rw [getIntersectionName, dif_neg hi] at h
    cases h

/-- Under the decode checks, every base display name is non-empty:
each intersection has an incident segment, and the owning streets are
named. -/
theorem intersectionBases_getElem_ne_empty {raw : RawData}
    (hok : decodeOK raw = true) (i : Nat)
    (hi : i < (intersectionBases raw).length) :
    (intersectionBases raw)[i] ≠ "" := by
  obtain ⟨hsegs, hstr, hinc⟩ := decodeOK_spec hok
  have hi0 : i < raw.intersections.length := by
    simpa [intersectionBases_length] using hi
  have hb : i < (buildIncident raw.intersections.length raw.segments).length := by
    simpa [buildIncident_length] using hi0
  have hbase : (intersectionBases raw)[i] =
      joinAmp (distinctInOrder
        ((buildIncident raw.intersections.length raw.segments)[i].map
          (segStreetName raw))) := by
    simp [intersectionBases]
  -- the incident list is non-empty
  obtain ⟨g, hg, hcond⟩ := hinc i hi0
  obtain ⟨s, hs, rfl⟩ := List.getElem_of_mem hg
  have hnl : ∀ g ∈ raw.segments, g.«from» ≠ g.«to» :=
    fun g hg => (hsegs g hg).2.2.1
  have hsmem : s ∈ (buildIncident raw.intersections.length raw.segments)[i] :=
    (mem_buildIncident hnl i hi0 hb s).mpr ⟨hs, hcond⟩
  have hmapne : (buildIncident raw.intersections.length raw.segments)[i].map
      (segStreetName raw) ≠ [] := by
    simp only [ne_eq, List.map_eq_nil_iff]
    exact List.ne_nil_of_mem hsmem
  have hdist := distinctInOrder_ne_nil _ hmapne
  -- every street name reachable from an incident segment is non-empty
  have hnames : ∀ x ∈ distinctInOrder
      ((buildIncident raw.intersections.length raw.segments)[i].map
        (segStreetName raw)), x ≠ "" := by
    intro x hx
    have hx2 := distinctInOrder_mem _ _ hx
    simp only [List.mem_map] at hx2
    obtain ⟨s', hs', rfl⟩ := hx2
    obtain ⟨hslt, _⟩ := (mem_buildIncident hnl i hi0 hb s').mp hs'
    have hsid := (hsegs raw.segments[s'] (List.getElem_mem hslt)).2.2.2
    have h1 : raw.segments.getD s' default = raw.segments[s'] :=
      List.getD_eq_getElem _ _ hslt
    have h2 : raw.streets.getD raw.segments[s'].streetID default =
        raw.streets[raw.segments[s'].streetID] :=
      List.getD_eq_getElem _ _ hsid
    show segStreetName raw s' ≠ ""
    rw [segStreetName, h1, h2]
    exact hstr _ (List.getElem_mem hsid)
  rw [hbase]
  rcases hd : distinctInOrder
      ((buildIncident raw.intersections.length raw.segments)[i].map
        (segStreetName raw)) with _ | ⟨a, rest⟩
  · exact absurd hd hdist
  · exact joinAmp_ne_empty a rest (hnames a (by rw [hd]; simp))

/-- The synthesized name table of a loaded database, entry `i`. -/
theorem db_name_getElem {raw : RawData} (i : Nat)
    (hi : i < (mkDatabase raw).intersections.length)
    (hn : i < (assignNames (intersectionBases raw)).length) :
    (mkDatabase raw).intersections[i].name =
      (assignNames (intersectionBases raw))[i] :=
  mkDatabase_name raw i
    (by simpa [mkDatabase_intersections_length] using hi) hi hn

/-- **C3**: for every loaded database, every synthesized intersection
name is non-empty, and no two distinct intersection indices yield the
same name. -/
theorem intersection_names_unique_nonempty
    (raw : RawData) (db : Database) (hload : loadDB raw = some db) :
    (∀ i nm, getIntersectionName db i = .ok nm → nm ≠ "") ∧
    (∀ i1 i2 nm1 nm2, i1 ≠ i2 →
      getIntersectionName db i1 = .ok nm1 →
      getIntersectionName db i2 = .ok nm2 → nm1 ≠ nm2) := by
  obtain ⟨hok, rfl⟩ := loadDB_eq_some hload
  have hlen : ∀ i, i < (mkDatabase raw).intersections.length →
      i < (assignNames (intersectionBases raw)).length := by
    intro i hi
    rw [assignNames_length, intersectionBases_length]
    simpa [mkDatabase_intersections_length] using hi
  constructor
  · intro i nm hq
    obtain ⟨hi, rfl⟩ := getIntersectionName_ok hq
    have hn := hlen i hi
    rw [db_name_getElem i hi hn]
    have hbn : i < (intersectionBases raw).length := by
      simpa [assignNames_length] using hn
    have hget := assignFrom_getElem [] (intersectionBases raw) i hbn hn
    show (assignFrom [] (intersectionBases raw))[i] ≠ ""
    rw [hget]
    exact freshName_ne_empty _ _ (intersectionBases_getElem_ne_empty hok i hbn)
  · intro i1 i2 nm1 nm2 hne hq1 hq2
    obtain ⟨hi1, rfl⟩ := getIntersectionName_ok hq1
    obtain ⟨hi2, rfl⟩ := getIntersectionName_ok hq2
    have hn1 := hlen i1 hi1
    have hn2 := hlen i2 hi2
    rw [db_name_getElem i1 hi1 hn1, db_name_getElem i2 hi2 hn2]
    intro hcon
    exact hne ((List.Nodup.getElem_inj_iff
      (assignNames_nodup (intersectionBases raw))).mp hcon)

/-- Witness for C3 at `rawA`: the two synthesized names "Main" and
"Main (1)" are non-empty and distinct. -/
theorem intersection_names_unique_nonempty_witness :
    getIntersectionName dbA 0 = .ok "Main" ∧
    getIntersectionName dbA 1 = .ok "Main (1)" ∧
    ("Main" : String) ≠ "" ∧ ("Main" : String) ≠ "Main (1)" := by
  have h := intersection_names_unique_nonempty rawA dbA rfl
  exact ⟨rfl, rfl, h.1 0 "Main" rfl, h.2 0 1 "Main" "Main (1)" (by decide) rfl rfl⟩

/-- The base display name of intersection `i` (before disambiguation). -/
def intersectionBaseName (raw : RawData) (i : Nat) : String :=
  (intersectionBases raw).getD i ""

/-- **C2**: every synthesized intersection name is the distinct street
names of the incident segments joined with `" & "` (first-seen, hence
deterministic, order), with a parenthesized counter `" (k)"`, `k ≥ 1`,
appended exactly when the base name collides with a name assigned to
an earlier intersection (assignment runs in intersection-index order,
so the name never collides with an earlier one); an intersection whose
incident segments have exactly one distinct street name gets that name
as base, hence unmodified when there is no collision; and on the
two-intersection one-street map the names come out "Main" and
"Main (1)". -/
theorem intersection_name_spec
    (raw : RawData) (db : Database) (hload : loadDB raw = some db)
    (i : Nat) (nm : String) (hq : getIntersectionName db i = .ok nm) :
    (nm = intersectionBaseName raw i ∨
      ∃ k, 1 ≤ k ∧ nm = candName (intersectionBaseName raw i) k) ∧
    nm ∉ (assignNames (intersectionBases raw)).take i ∧
    (intersectionBaseName raw i ∉ (assignNames (intersectionBases raw)).take i →
      nm = intersectionBaseName raw i) ∧
    (∀ nm0, distinctInOrder
        (((buildIncident raw.intersections.length raw.segments).getD i []).map
          (segStreetName raw)) = [nm0] →
      intersectionBaseName raw i = nm0) ∧
    (getIntersectionName dbA 0 = .ok "Main" ∧
     getIntersectionName dbA 1 = .ok "Main (1)") := by
  obtain ⟨hok, rfl⟩ := loadDB_eq_some hload
  obtain ⟨hi, rfl⟩ := getIntersectionName_ok hq
  have hn : i < (assignNames (intersectionBases raw)).length := by
    rw [assignNames_length, intersectionBases_length]
    simpa [mkDatabase_intersections_length] using hi
  have hbn : i < (intersectionBases raw).length := by
    simpa [assignNames_length] using hn
  have hbi : i < (buildIncident raw.intersections.length raw.segments).length := by
    simpa [intersectionBases_length, buildIncident_length] using hbn
  have hname := db_name_getElem i hi hn
  have hget := assignFrom_getElem [] (intersectionBases raw) i hbn hn
  have hbase : intersectionBaseName raw i = (intersectionBases raw)[i] :=
    List.getD_eq_getElem _ _ hbn
  have hshape : (mkDatabase raw).intersections[i].name =
      freshName ((assignNames (intersectionBases raw)).take i)
        (intersectionBases raw)[i] := by
    rw [hname]
    show (assignFrom [] (intersectionBases raw))[i] = _
    rw [hget]
    simp [assignNames]
  have hbval : (intersectionBases raw)[i] =
      joinAmp (distinctInOrder
        ((buildIncident raw.intersections.length raw.segments)[i].map
          (segStreetName raw))) := by
    simp [intersectionBases]
  refine ⟨?_, ?_, ?_, ?_, rfl, rfl⟩
  · rw [hshape, hbase]
    rcases freshName_shape ((assignNames (intersectionBases raw)).take i)
        (intersectionBases raw)[i] with h | ⟨_, k, hk, h⟩
    · exact Or.inl h
    · exact Or.inr ⟨k, hk, h⟩
  · rw [hshape]
    exact freshName_not_mem _ _
  · intro hnc
    rw [hshape, hbase]
    exact freshName_of_not_mem _ _ (by rwa [hbase] at hnc)
  · intro nm0 hdist
    have hgd : (buildIncident raw.intersections.length raw.segments).getD i [] =
        (buildIncident raw.intersections.length raw.segments)[i] :=
      List.getD_eq_getElem _ _ hbi
    rw [hgd] at hdist
    rw [hbase, hbval, hdist]
    rfl

/-- Witness for C2 at `rawA`, intersection 1: its name "Main (1)" is
the base name "Main" with the counter `" (1)"` appended. -/
theorem intersection_name_spec_witness :
    ("Main (1)" : String) = intersectionBaseName rawA 1 ∨
      ∃ k, 1 ≤ k ∧ ("Main (1)" : String) = candName (intersectionBaseName rawA 1) k :=
  (intersection_name_spec rawA dbA rfl 1 "Main (1)" rfl).1

/-- **C8**: for a feature whose stored boundary sequence is a closed
polygon (first point equal to the last), the loader preserves the
stored sequence verbatim: `getFeaturePointCount` reports the stored
length including the duplicated endpoint, and `getFeaturePoint`
returns exactly the `j`-th stored point for every in-range `j`. -/
theorem feature_closed_polygon_preserved
    (raw : RawData) (db : Database) (hload : loadDB raw = some db)
    (f : Nat) (hf : f < raw.features.length)
    (_hclosed : raw.features[f].points ≠ [] ∧
      raw.features[f].points.head? = raw.features[f].points.getLast?) :
    getFeaturePointCount db f = .ok raw.features[f].points.length ∧
    ∀ j, (hj : j < raw.features[f].points.length) →
      getFeaturePoint db f j = .ok (raw.features[f].points.get ⟨j, hj⟩) := by
  obtain ⟨hok, rfl⟩ := loadDB_eq_some hload
  have hf' : f < (mkDatabase raw).features.length := hf
  constructor
  · rw [getFeaturePointCount, dif_pos hf']
    rfl
  · intro j hj
    have hj' : j < (mkDatabase raw).features[f].points.length := hj
    rw [getFeaturePoint, dif_pos hf', dif_pos hj']
    rfl

/-- Witness for C8 at `rawA`'s closed-polygon feature: the count keeps
the duplicated endpoint and the last point equals the stored one. -/
theorem feature_closed_polygon_preserved_witness :
    getFeaturePointCount dbA 0 = .ok 4 ∧
    getFeaturePoint dbA 0 3 = .ok ⟨0, 0⟩ := by
  have h := feature_closed_polygon_preserved rawA dbA rfl 0 (by decide)
    ⟨by decide, by decide⟩
  exact ⟨h.1, h.2 3 (by decide)⟩

/-- **C4**: every index-taking accessor fails with the out-of-range
error condition — never clamping or returning a default — whenever any
of its indices is invalid for the loaded database: the entity index
outside `[0, countOf kind)`, or, for the two-index accessors, the
point index outside the entity's point count.  With `countOf kind = 0`
this makes every accessor of that kind fail for every index. -/
theorem invalid_index_out_of_range
    (db : Database) (q : Query) (hq : indexed q = true)
    (hinv : indexOK db q = false) :
    runQueryDB db q = .error .outOfRange := by
  cases q with
  | numberOfStreets => exact absurd hq (by simp [indexed])
  | numberOfStreetSegments => exact absurd hq (by simp [indexed])
  | numberOfIntersections => exact absurd hq (by simp [indexed])
  | numberOfPointsOfInterest => exact absurd hq (by simp [indexed])
  | numberOfFeatures => exact absurd hq (by simp [indexed])
  | intersectionName i =>
    have h : ¬ i < db.intersections.length := by simpa [indexOK] using hinv
    simp [runQueryDB, getIntersectionName, h, Except.map]
  | intersectionPosition i =>
    have h : ¬ i < db.intersections.length := by simpa [indexOK] using hinv
    simp [runQueryDB, getIntersectionPosition, h, Except.map]
  | intersectionOSMNodeID i =>
    have h : ¬ i < db.intersections.length := by simpa [indexOK] using hinv
    simp [runQueryDB, getIntersectionOSMNodeID, h, Except.map]
  | intersectionStreetSegmentCount i =>
    have h : ¬ i < db.intersections.length := by simpa [indexOK] using hinv
    simp [runQueryDB, getIntersectionStreetSegmentCount, h, Except.map]
  | intersectionStreetSegment i j =>
    by_cases hi : i < db.intersections.length
    · have h : ¬ j < db.intersections[i].incident.length := by
        have h0 : ¬ j < (db.intersections.getD i default).incident.length := by
          simpa [indexOK, hi] using hinv
        rwa [List.getD_eq_getElem _ _ hi] at h0
      simp [runQueryDB, getIntersectionStreetSegment, hi, h, Except.map]
    · simp [runQueryDB, getIntersectionStreetSegment, hi, Except.map]
  | streetSegmentInfo s =>
    have h : ¬ s < db.segments.length := by simpa [indexOK] using hinv
    simp [runQueryDB, getStreetSegmentInfo, h, Except.map]
  | streetSegmentCurvePoint s j =>
    by_cases hs : s < db.segments.length
    · have h : ¬ j < db.segments[s].curvePoints.length := by
        have h0 : ¬ j < (db.segments.getD s default).curvePoints.length := by
          simpa [indexOK, hs] using hinv
        rwa [List.getD_eq_getElem _ _ hs] at h0
      simp [runQueryDB, getStreetSegmentCurvePoint, hs, h, Except.map]
    · simp [runQueryDB, getStreetSegmentCurvePoint, hs, Except.map]
  | streetName st =>
    have h : ¬ st < db.streets.length := by simpa [indexOK] using hinv
    simp [runQueryDB, getStreetName, h, Except.map]
  | pointOfInterestType p =>
    have h : ¬ p < db.pois.length := by simpa [indexOK] using hinv
    simp [runQueryDB, getPointOfInterestType, h, Except.map]
  | pointOfInterestName p =>
    have h : ¬ p < db.pois.length := by simpa [indexOK] using hinv
    simp [runQueryDB, getPointOfInterestName, h, Except.map]
  | pointOfInterestPosition p =>
    have h : ¬ p < db.pois.length := by simpa [indexOK] using hinv
    simp [runQueryDB, getPointOfInterestPosition, h, Except.map]
  | pointOfInterestOSMNodeID p =>
    have h : ¬ p < db.pois.length := by simpa [indexOK] using hinv
    simp [runQueryDB, getPointOfInterestOSMNodeID, h, Except.map]
  | featureName f =>
    have h : ¬ f < db.features.length := by simpa [indexOK] using hinv
    simp [runQueryDB, getFeatureName, h, Except.map]
  | featureType f =>
    have h : ¬ f < db.features.length := by simpa [indexOK] using hinv
    simp [runQueryDB, getFeatureType, h, Except.map]
  | featureOSMID f =>
    have h : ¬ f < db.features.length := by simpa [indexOK] using hinv
    simp [runQueryDB, getFeatureOSMID, h, Except.map]
  | featurePointCount f =>
    have h : ¬ f < db.features.length := by simpa [indexOK] using hinv
    simp [runQueryDB, getFeaturePointCount, h, Except.map]
  | featurePoint f j =>
    by_cases hf : f < db.features.length
    · have h : ¬ j < db.features[f].points.length := by
        have h0 : ¬ j < (db.features.getD f default).points.length := by
          simpa [indexOK, hf] using hinv
        rwa [List.getD_eq_getElem _ _ hf] at h0
      simp [runQueryDB, getFeaturePoint, hf, h, Except.map]
    · simp [runQueryDB, getFeaturePoint, hf, Except.map]

/-- Witness for C4 at `dbA`: an out-of-range intersection index fails,
and — `dbA` having zero points of interest — every POI accessor index
fails. -/
theorem invalid_index_out_of_range_witness :
    runQueryDB dbA (.intersectionName 5) = .error .outOfRange ∧
    runQueryDB dbA (.pointOfInterestName 0) = .error .outOfRange := by
  exact ⟨invalid_index_out_of_range dbA (.intersectionName 5) rfl (by decide),
    invalid_index_out_of_range dbA (.pointOfInterestName 0) rfl (by decide)⟩

/-- **C5**: if the load fails (unreadable file or any decode
inconsistency) it reports failure and retains no partial state: the
global slot remains unloaded and every subsequent query fails with the
misuse (`notLoaded`) condition rather than returning data. -/
theorem failed_load_no_partial_state
    (st : Option Database) (file : Option RawData)
    (hfail : (loadStreetsDatabaseBIN st file).1 = false) :
    (loadStreetsDatabaseBIN st file).2 = none ∧
    ∀ q, runQuery (loadStreetsDatabaseBIN st file).2 q = .error .notLoaded := by
  cases hf : file.bind loadDB with
  | none => simp [loadStreetsDatabaseBIN, hf, runQuery]
  | some db => simp [loadStreetsDatabaseBIN, hf] at hfail

/-- A raw table set failing the decode checks: its only segment
references intersection 5, which does not exist. -/
def rawBad : RawData :=
  { intersections := [⟨⟨0, 0⟩, 100⟩]
    segments := [{ wayOSMID := 500, «from» := 0, «to» := 5, oneWay := false,
                   curvePoints := [], speedLimit := 40, streetID := 0 }]
    streets := [⟨"Main"⟩]
    pois := []
    features := [] }

/-- Witness for C5: loading `rawBad` fails, leaves the slot unloaded,
and a subsequent query reports the misuse condition. -/
theorem failed_load_no_partial_state_witness :
    (loadStreetsDatabaseBIN none (some rawBad)).2 = none ∧
    runQuery (loadStreetsDatabaseBIN none (some rawBad)).2 .numberOfStreets =
      .error .notLoaded := by
  have h := failed_load_no_partial_state none (some rawBad) rfl
  exact ⟨h.1, h.2 .numberOfStreets⟩

/-- **C6**: loading the same file in two independent contexts (whatever
their prior states) yields observably identical databases: every query
— counts of every kind, cross-references, synthesized names — answers
identically, and the success signals agree. -/
theorem load_same_file_identical (file : Option RawData)
    (st1 st2 : Option Database) :
    (loadStreetsDatabaseBIN st1 file).1 = (loadStreetsDatabaseBIN st2 file).1 ∧
    ∀ q, runQuery (loadStreetsDatabaseBIN st1 file).2 q =
      runQuery (loadStreetsDatabaseBIN st2 file).2 q :=
  ⟨rfl, fun _ => rfl⟩

/-- **C9**: the context/handle design refines the single-global design:
any command trace run against the implicit global slot gives exactly
the outputs of the handle world under the one-current-handle
discipline; and independently loaded handles coexist — later loads
leave answers through an existing handle unchanged. -/
theorem handle_refines_global :
    (∀ cs : List Cmd, runHandle [] none cs = runGlobal none cs) ∧
    (∀ (ctxs more : List Database) (i : Nat) (q : Query),
      i < ctxs.length →
      queryHandle (ctxs ++ more) (some i) q = queryHandle ctxs (some i) q) := by
  constructor
  · intro cs
    exact runHandle_sim cs none [] none trivial
  · intro ctxs more i q hi
    exact queryHandle_stable ctxs more i hi q

/-- Witness for C9: a concrete load-then-query trace agrees in both
worlds, and a second loaded database does not disturb the first
handle's answers. -/
theorem handle_refines_global_witness :
    runHandle [] none [.load (some rawA), .query .numberOfIntersections] =
      runGlobal none [.load (some rawA), .query .numberOfIntersections] ∧
    queryHandle ([dbA] ++ [dbA]) (some 0) .numberOfStreets =
      queryHandle [dbA] (some 0) .numberOfStreets :=
  ⟨handle_refines_global.1 [.load (some rawA), .query .numberOfIntersections],
    handle_refines_global.2 [dbA] [dbA] 0 .numberOfStreets (by decide)⟩

end StreetsDB
